import Mathlib

/-!
Verification of the dashboard aggregation core of the octopus repository
(src/frontend/src/services/api.ts and src/frontend/src/utils/detailGridUtils.ts).

Modelling conventions:
* JavaScript numbers are modelled as exact rationals (`Rat`); tariff rates are
  pence per kWh, consumption is kWh.
* Instants (JavaScript `Date` values) are modelled as integers: milliseconds on
  a fixed-offset local timeline whose origin is a Monday 00:00:00.000.  Under a
  fixed offset, the local calendar-day and week boundaries are exact multiples
  of `msPerDay` and `msPerWeek` on this timeline, so the `Date` component
  arithmetic of the source (getDay, setDate, setHours) becomes modular
  arithmetic.
* A record `{ valid_from, value_inc_vat, consumption }` keeps its source field
  names; the parsed `new Date(item.valid_from)` is the integer field itself.
* JavaScript `Array.prototype.sort` with the numeric comparator on
  `getTime()` is a stable sort by `valid_from`; it is modelled by a stable
  insertion sort (`sortByValidFrom`).
* Plain JavaScript objects used as dictionaries (`Record<string, ...>`)
  preserve key insertion order for date-string keys; they are modelled by
  association lists to which new keys are appended at the end
  (`pushToBucket`, `pushAgg`).
-/

namespace Octopus

/-- Milliseconds per day on the model timeline. -/
def msPerDay : Int := 86400000

/-- Milliseconds per week on the model timeline. -/
def msPerWeek : Int := 604800000

/-- Input record shape of src/frontend/src/services/api.ts: one settlement
interval with its tariff rate (pence per kWh) and consumption (kWh).
The field valid_from is the parsed timestamp in model milliseconds. -/
structure TariffAndConsumptionData where
  valid_from : Int
  value_inc_vat : Rat
  consumption : Rat
deriving DecidableEq, Repr

instance : Inhabited TariffAndConsumptionData := ⟨⟨0, 0, 0⟩⟩

/-- Output shape of calculateCostSummary: total cost in pounds, average cost
per kWh in pence, and the pass-through period label. -/
structure CostSummary where
  totalCost : Rat
  averageCostPerKwh : Rat
  period : Option String
deriving DecidableEq, Repr

/-- Embedding of calculateCostSummary (api.ts lines 49 to 70): accumulate
pence cost and consumption over the records with a forEach loop, guard the
average against zero total consumption, and convert pence to pounds by a
single final division by 100. -/
def calculateCostSummary (data : List TariffAndConsumptionData)
    (period : Option String) : CostSummary :=
  let totalCost := data.foldl (fun acc r => acc + r.consumption * r.value_inc_vat) (0 : Rat)
  let totalConsumption := data.foldl (fun acc r => acc + r.consumption) (0 : Rat)
  let averageCostPerKwh := if 0 < totalConsumption then totalCost / totalConsumption else 0
  { totalCost := totalCost / 100
    averageCostPerKwh := averageCostPerKwh
    period := period }

/-- Reference definition written from the words of the specification (section
4.3): totalCostPence as a sum, totalCostPounds as that sum divided by 100,
and the consumption-weighted average with the positivity guard.  This is the
comparison point for the refinement claim about calculateCostSummary. -/
def summarizeSpec (data : List TariffAndConsumptionData)
    (period : Option String) : CostSummary :=
  let totalCostPence := (data.map (fun r => r.consumption * r.value_inc_vat)).sum
  let totalConsumption := (data.map (fun r => r.consumption)).sum
  { totalCost := totalCostPence / 100
    averageCostPerKwh := if 0 < totalConsumption then totalCostPence / totalConsumption else 0
    period := period }

/-- Embedding of filterDataByDateRange (api.ts lines 73 to 82): keep the
records whose timestamp lies in the closed interval from startDate to
endDate, preserving input order. -/
def filterDataByDateRange (data : List TariffAndConsumptionData)
    (startDate endDate : Int) : List TariffAndConsumptionData :=
  data.filter (fun item => decide (startDate ≤ item.valid_from) &&
    decide (item.valid_from ≤ endDate))

/-- Folding an addition of a projection equals summing the mapped list. -/
theorem foldl_add_eq_sum (f : TariffAndConsumptionData → Rat)
    (l : List TariffAndConsumptionData) (a : Rat) :
    l.foldl (fun acc r => acc + f r) a = a + (l.map f).sum := by
  induction l generalizing a with
  | nil => simp
  | cons r t ih => simp [List.foldl_cons, ih, add_assoc]

theorem calculateCostSummary_eq_spec (data : List TariffAndConsumptionData)
    (period : Option String) :
    calculateCostSummary data period = summarizeSpec data period := by
  simp [calculateCostSummary, summarizeSpec, foldl_add_eq_sum]

/-- Stable insertion of a record into a list already sorted by valid_from:
the new record goes after every record whose valid_from is less than or
equal to its own, matching the stable sort of Array.prototype.sort. -/
def insertByValidFrom (r : TariffAndConsumptionData) :
    List TariffAndConsumptionData → List TariffAndConsumptionData
  | [] => [r]
  | x :: xs =>
      if r.valid_from < x.valid_from then r :: x :: xs
      else x :: insertByValidFrom r xs

/-- Model of the stable sort by timestamp used in api.ts
(sort on getTime differences): a stable insertion sort by valid_from. -/
def sortByValidFrom (data : List TariffAndConsumptionData) :
    List TariffAndConsumptionData :=
  data.foldl (fun acc r => insertByValidFrom r acc) []

/-- Chronological order on records: the first one starts no later than the
second one. -/
def byTime (a b : TariffAndConsumptionData) : Prop :=
  a.valid_from ≤ b.valid_from

instance : DecidableRel byTime := fun a b => Int.decLe a.valid_from b.valid_from

/-- Calendar-date key of a timestamp: the day number on the model timeline
(the dateKey string of api.ts, one key per calendar date). -/
def dayKey (t : Int) : Int := t / msPerDay

/-- Append a record to the bucket of its key in an association list,
creating the bucket at the end when the key is new.  This is the reduce
step of the grouping in createChartData (api.ts lines 92 to 110), with the
insertion-order semantics of a JavaScript object. -/
def pushToBucket (acc : List (Int × List TariffAndConsumptionData))
    (k : Int) (r : TariffAndConsumptionData) :
    List (Int × List TariffAndConsumptionData) :=
  match acc with
  | [] => [(k, [r])]
  | (k', xs) :: rest =>
      if k' = k then (k', xs ++ [r]) :: rest
      else (k', xs) :: pushToBucket rest k r

/-- Grouping step of createChartData (api.ts lines 85 to 110): sort the
records chronologically, then group them by calendar-date key in key
insertion order. -/
def groupByDate (data : List TariffAndConsumptionData) :
    List (Int × List TariffAndConsumptionData) :=
  (sortByValidFrom data).foldl
    (fun acc r => pushToBucket acc (dayKey r.valid_from) r) []

/-- Concatenation of all bucket contents in bucket order. -/
def flattenGroups (groups : List (Int × List TariffAndConsumptionData)) :
    List TariffAndConsumptionData :=
  groups.foldr (fun b acc => b.2 ++ acc) []

/-- One plotly trace of createChartData: a price line per date, a
consumption bar series per date, or the placeholder empty object emitted
for a date whose readings all have zero consumption. -/
inductive ChartTrace where
  | price (date : Int) (x : List Int) (y : List Rat) : ChartTrace
  | consumption (date : Int) (x : List Int) (y : List Rat) : ChartTrace
  | emptyTrace : ChartTrace
deriving DecidableEq, Repr

/-- Price trace of one date bucket (api.ts lines 114 to 130): x values are
the timestamps and y values the rates, after the in-place re-sort of the
bucket items (a no-op on the already chronological buckets). -/
def priceTrace (b : Int × List TariffAndConsumptionData) : ChartTrace :=
  ChartTrace.price b.1 ((sortByValidFrom b.2).map (fun i => i.valid_from))
    ((sortByValidFrom b.2).map (fun i => i.value_inc_vat))

/-- Consumption trace of one date bucket (api.ts lines 133 to 148), or the
placeholder empty object when no reading of the bucket has a truthy
(nonzero) consumption. -/
def consumptionTrace (b : Int × List TariffAndConsumptionData) : ChartTrace :=
  if (sortByValidFrom b.2).any (fun i => decide (i.consumption ≠ 0)) then
    ChartTrace.consumption b.1 ((sortByValidFrom b.2).map (fun i => i.valid_from))
      ((sortByValidFrom b.2).map (fun i => i.consumption))
  else ChartTrace.emptyTrace

/-- Embedding of createChartData (api.ts lines 85 to 151): group the sorted
records by date, emit one price trace per bucket, then one consumption or
placeholder trace per bucket, and concatenate the two series lists. -/
def createChartData (data : List TariffAndConsumptionData) : List ChartTrace :=
  (groupByDate data).map priceTrace ++ (groupByDate data).map consumptionTrace

/-- Output shape of findCurrentAndNextTariff: a tariff interval with its
rate, start instant, and optional end instant. -/
structure TariffInfo where
  rate : Rat
  validFrom : Int
  validUntil : Option Int
deriving DecidableEq, Repr

/-- Downward scan of the for loop in findCurrentAndNextTariff (api.ts lines
194 to 206): starting at index i - 1 and counting down, return the first
index whose record has valid_from at most now. -/
def scanDown (sorted : List TariffAndConsumptionData) (now : Int) :
    Nat → Option Nat
  | 0 => none
  | i + 1 =>
      if (sorted.getD i default).valid_from ≤ now then some i
      else scanDown sorted now i

/-- Index of the current tariff: the largest index of the sorted list whose
valid_from is at most now, when one exists. -/
def lastIndexLE (sorted : List TariffAndConsumptionData) (now : Int) :
    Option Nat :=
  scanDown sorted now sorted.length

/-- TariffInfo built from position i of the sorted list, with validUntil
taken from the following record when i is not the last index (the
construction repeated at api.ts lines 198 to 203 and 211 to 217). -/
def tariffAt (sorted : List TariffAndConsumptionData) (i : Nat) : TariffInfo :=
  { rate := (sorted.getD i default).value_inc_vat
    validFrom := (sorted.getD i default).valid_from
    validUntil :=
      if i < sorted.length - 1 then some ((sorted.getD (i + 1) default).valid_from)
      else none }

/-- Embedding of findCurrentAndNextTariff (api.ts lines 175 to 221) with
now passed explicitly: empty input gives two nulls; otherwise the records
are sorted by valid_from, the current tariff is the one at the largest
index whose valid_from is at most now, and the next tariff is the one
right after it when the current one is not last. -/
def findCurrentAndNextTariff (data : List TariffAndConsumptionData)
    (now : Int) : Option TariffInfo × Option TariffInfo :=
  if data.length = 0 then (none, none)
  else
    let sorted := sortByValidFrom data
    match lastIndexLE sorted now with
    | none => (none, none)
    | some i =>
        let currentTariff := tariffAt sorted i
        let nextTariff :=
          if i < sorted.length - 1 then some (tariffAt sorted (i + 1)) else none
        (some currentTariff, nextTariff)

/-- Embedding of getWeekStart (api.ts lines 32 to 39): move to the Monday
of the week of the given instant and call setHours(0, 0, 0), which zeroes
hours, minutes and seconds but keeps the millisecond component of the
input instant.  On the model timeline this is the Monday midnight boundary
plus the millisecond remainder of now. -/
def getWeekStart (now : Int) : Int :=
  now - now.emod msPerWeek + now.emod 1000

/-- Week start as the specification states it (section 4.6): the most
recent Monday at exactly 00:00, with no millisecond residue. -/
def specWeekStart (now : Int) : Int :=
  now - now.emod msPerWeek

/-- Week-to-date derivation of the orchestrator fetchAllDashboardData
(api.ts lines 253 to 254): filter the fetched records to the closed range
from getWeekStart now to now and summarize them with the WTD label. -/
def wtdCostSummary (mtdData : List TariffAndConsumptionData) (now : Int) :
    CostSummary :=
  calculateCostSummary (filterDataByDateRange mtdData (getWeekStart now) now)
    (some ("WTD"))

/-- Per-day accumulator of transformToDetailGridData
(detailGridUtils.ts lines 49 to 72). -/
structure DayAgg where
  totalConsumption : Rat
  totalCost : Rat
  rateSum : Rat
  rateCount : Nat
deriving DecidableEq, Repr

/-- Fresh accumulator for a new date key. -/
def emptyAgg : DayAgg := ⟨0, 0, 0, 0⟩

/-- One reduce step of transformToDetailGridData on the accumulator of the
records date: the interval cost divides the pence cost by 100 before it is
accumulated (detailGridUtils.ts lines 63 to 69). -/
def updateAgg (a : DayAgg) (r : TariffAndConsumptionData) : DayAgg :=
  { totalConsumption := a.totalConsumption + r.consumption
    totalCost := a.totalCost + r.consumption * r.value_inc_vat / 100
    rateSum := a.rateSum + r.value_inc_vat
    rateCount := a.rateCount + 1 }

/-- Reduce step over the association list of day aggregates: update the
entry of the key in place, or append a fresh one at the end. -/
def pushAgg (acc : List (Int × DayAgg)) (k : Int)
    (r : TariffAndConsumptionData) : List (Int × DayAgg) :=
  match acc with
  | [] => [(k, updateAgg emptyAgg r)]
  | (k', a) :: rest =>
      if k' = k then (k', updateAgg a r) :: rest
      else (k', a) :: pushAgg rest k r

/-- Grouping and aggregation of transformToDetailGridData
(detailGridUtils.ts lines 49 to 72): reduce the records into per-date
aggregates keyed by calendar date, in key insertion order. -/
def groupedByDate (data : List TariffAndConsumptionData) :
    List (Int × DayAgg) :=
  data.foldl (fun acc r => pushAgg acc (dayKey r.valid_from) r) []

/-- First-match lookup in an association list of day aggregates, the model
of reading a property of a JavaScript object. -/
def lookupAgg : List (Int × DayAgg) → Int → Option DayAgg
  | [], _ => none
  | (k', a) :: rest, k => if k' = k then some a else lookupAgg rest k

theorem insertByValidFrom_perm (r : TariffAndConsumptionData)
    (l : List TariffAndConsumptionData) :
    (insertByValidFrom r l).Perm (r :: l) := by
  induction l with
  | nil => simp [insertByValidFrom]
  | cons x xs ih =>
      by_cases h : r.valid_from < x.valid_from
      · simp [insertByValidFrom, h]
      · simp only [insertByValidFrom, if_neg h]
        exact (ih.cons x).trans (List.Perm.swap r x xs)

theorem insertByValidFrom_pairwise (r : TariffAndConsumptionData)
    (l : List TariffAndConsumptionData) (h : List.Pairwise byTime l) :
    List.Pairwise byTime (insertByValidFrom r l) := by
  induction l with
  | nil => simp [insertByValidFrom, List.Pairwise.nil]
  | cons x xs ih =>
      rw [List.pairwise_cons] at h
      by_cases hlt : r.valid_from < x.valid_from
      · rw [insertByValidFrom, if_pos hlt, List.pairwise_cons]
        refine ⟨?_, List.pairwise_cons.mpr h⟩
        intro b hb
        rcases List.mem_cons.mp hb with hb | hb
        · exact hb ▸ le_of_lt hlt
        · exact le_of_lt (lt_of_lt_of_le hlt (h.1 b hb))
      · rw [insertByValidFrom, if_neg hlt, List.pairwise_cons]
        refine ⟨?_, ih h.2⟩
        intro b hb
        have hb2 : b ∈ r :: xs := (insertByValidFrom_perm r xs).mem_iff.mp hb
        rcases List.mem_cons.mp hb2 with hb2 | hb2
        · exact hb2 ▸ le_of_not_lt hlt
        · exact h.1 b hb2

theorem foldl_insert_perm (l : List TariffAndConsumptionData) :
    ∀ acc, (l.foldl (fun a r => insertByValidFrom r a) acc).Perm (acc ++ l) := by
  induction l with
  | nil => intro acc; simp
  | cons r t ih =>
      intro acc
      refine ((ih (insertByValidFrom r acc)).trans ?_)
      have h1 : (insertByValidFrom r acc ++ t).Perm ((r :: acc) ++ t) :=
        (insertByValidFrom_perm r acc).append_right t
      exact h1.trans List.perm_middle.symm

theorem sortByValidFrom_perm (data : List TariffAndConsumptionData) :
    (sortByValidFrom data).Perm data := by
  simpa [sortByValidFrom] using foldl_insert_perm data []

theorem sortByValidFrom_pairwise (data : List TariffAndConsumptionData) :
    List.Pairwise byTime (sortByValidFrom data) := by
  have main : ∀ (l acc : List TariffAndConsumptionData),
      List.Pairwise byTime acc →
      List.Pairwise byTime (l.foldl (fun a r => insertByValidFrom r a) acc) := by
    intro l
    induction l with
    | nil => intro acc h; exact h
    | cons r t ih =>
        intro acc h
        exact ih _ (insertByValidFrom_pairwise r acc h)
  exact main data [] List.Pairwise.nil

theorem insertByValidFrom_append (r : TariffAndConsumptionData)
    (acc : List TariffAndConsumptionData)
    (h : ∀ a ∈ acc, ¬ r.valid_from < a.valid_from) :
    insertByValidFrom r acc = acc ++ [r] := by
  induction acc with
  | nil => rfl
  | cons x xs ih =>
      rw [insertByValidFrom, if_neg (h x (List.mem_cons_self x xs))]
      simp only [List.cons_append, List.cons.injEq, true_and]
      exact ih (fun a ha => h a (List.mem_cons_of_mem x ha))

theorem sortByValidFrom_of_pairwise (l : List TariffAndConsumptionData)
    (h : List.Pairwise byTime l) : sortByValidFrom l = l := by
  have main : ∀ (l acc : List TariffAndConsumptionData),
      List.Pairwise byTime (acc ++ l) →
      l.foldl (fun a r => insertByValidFrom r a) acc = acc ++ l := by
    intro l
    induction l with
    | nil => intro acc _; simp
    | cons r t ih =>
        intro acc hp
        have hins : insertByValidFrom r acc = acc ++ [r] := by
          refine insertByValidFrom_append r acc ?_
          intro a ha
          have := (List.pairwise_append.mp hp).2.2 a ha r (List.mem_cons_self r t)
          exact not_lt.mpr this
        have hp2 : List.Pairwise byTime ((acc ++ [r]) ++ t) := by
          simpa [List.append_assoc] using hp
        rw [List.foldl_cons, hins, ih (acc ++ [r]) hp2, List.append_assoc]
        rfl
  simpa using main l [] (by simpa using h)

theorem scanDown_some (sorted : List TariffAndConsumptionData) (now : Int)
    (i k : Nat) (h : scanDown sorted now i = some k) :
    k < i ∧ (sorted.getD k default).valid_from ≤ now ∧
      ∀ j, k < j → j < i → now < (sorted.getD j default).valid_from := by
  induction i with
  | zero => simp [scanDown] at h
  | succ i ih =>
      rw [scanDown] at h
      by_cases hc : (sorted.getD i default).valid_from ≤ now
      · rw [if_pos hc] at h
        obtain rfl : i = k := Option.some.inj h
        exact ⟨Nat.lt_succ_self i, hc, fun j hj1 hj2 => absurd hj2 (by omega)⟩
      · rw [if_neg hc] at h
        obtain ⟨h1, h2, h3⟩ := ih h
        refine ⟨Nat.lt_succ_of_lt h1, h2, ?_⟩
        intro j hj1 hj2
        by_cases hji : j < i
        · exact h3 j hj1 hji
        · have : j = i := by omega
          exact this ▸ lt_of_not_le hc

theorem scanDown_none (sorted : List TariffAndConsumptionData) (now : Int)
    (i : Nat) (h : scanDown sorted now i = none) :
    ∀ j, j < i → now < (sorted.getD j default).valid_from := by
  induction i with
  | zero => intro j hj; omega
  | succ i ih =>
      rw [scanDown] at h
      by_cases hc : (sorted.getD i default).valid_from ≤ now
      · rw [if_pos hc] at h; exact absurd h (by simp)
      · rw [if_neg hc] at h
        intro j hj
        by_cases hji : j < i
        · exact ih h j hji
        · have : j = i := by omega
          exact this ▸ lt_of_not_le hc

theorem pushToBucket_keys_subset (acc : List (Int × List TariffAndConsumptionData))
    (k : Int) (r : TariffAndConsumptionData) (k' : Int)
    (h : k' ∈ (pushToBucket acc k r).map Prod.fst) :
    k' ∈ acc.map Prod.fst ∨ k' = k := by
  induction acc with
  | nil =>
      rw [pushToBucket] at h
      simp at h
      exact Or.inr h
  | cons b rest ih =>
      obtain ⟨k0, xs⟩ := b
      rw [pushToBucket] at h
      by_cases hk : k0 = k
      · rw [if_pos hk] at h
        simp at h
        rcases h with h | h
        · exact Or.inl (by simp [h])
        · exact Or.inl (by simp [h])
      · rw [if_neg hk] at h
        simp only [List.map_cons, List.mem_cons] at h
        rcases h with h | h
        · exact Or.inl (by simp [h])
        · rcases ih h with h2 | h2
          · exact Or.inl (by simp [h2])
          · exact Or.inr h2

theorem pushToBucket_props (acc : List (Int × List TariffAndConsumptionData))
    (k : Int) (r : TariffAndConsumptionData)
    (hmono : List.Pairwise (fun a b => a < b) (acc.map Prod.fst))
    (hle : ∀ k' ∈ acc.map Prod.fst, k' ≤ k) :
    flattenGroups (pushToBucket acc k r) = flattenGroups acc ++ [r] ∧
    List.Pairwise (fun a b => a < b) ((pushToBucket acc k r).map Prod.fst) ∧
    (∀ k' ∈ (pushToBucket acc k r).map Prod.fst, k' ≤ k) := by
  induction acc with
  | nil =>
      refine ⟨rfl, by simp [pushToBucket], ?_⟩
      intro k' hk'
      rw [pushToBucket] at hk'
      simp at hk'
      omega
  | cons b rest ih =>
      obtain ⟨k0, xs⟩ := b
      rw [List.map_cons, List.pairwise_cons] at hmono
      by_cases hk : k0 = k
      · subst hk
        have hrest : rest = [] := by
          cases rest with
          | nil => rfl
          | cons c t =>
              exfalso
              have h1 : k0 < c.1 := hmono.1 c.1 (by simp)
              have h2 : c.1 ≤ k0 := hle c.1 (by simp)
              omega
        subst hrest
        refine ⟨?_, by rw [pushToBucket]; simp, ?_⟩
        · rw [pushToBucket]
          simp [flattenGroups]
        · intro k' hk'
          rw [pushToBucket] at hk'
          simp at hk'
          exact hk' ▸ hle k0 (by simp)
      · have hle' : ∀ k' ∈ rest.map Prod.fst, k' ≤ k := by
          intro k' hk'
          exact hle k' (by simp [hk'])
        obtain ⟨ih1, ih2, ih3⟩ := ih hmono.2 hle'
        have hk0k : k0 < k := lt_of_le_of_ne (hle k0 (by simp)) hk
        refine ⟨?_, ?_, ?_⟩
        · rw [pushToBucket, if_neg hk]
          show xs ++ flattenGroups (pushToBucket rest k r) = (xs ++ flattenGroups rest) ++ [r]
          rw [ih1, List.append_assoc]
        · rw [pushToBucket, if_neg hk, List.map_cons, List.pairwise_cons]
          refine ⟨?_, ih2⟩
          intro k' hk'
          rcases pushToBucket_keys_subset rest k r k' hk' with h2 | h2
          · exact hmono.1 k' h2
          · omega
        · intro k' hk'
          rw [pushToBucket, if_neg hk] at hk'
          simp only [List.map_cons, List.mem_cons] at hk'
          rcases hk' with hk' | hk'
          · exact hk' ▸ le_of_lt hk0k
          · exact ih3 k' hk'

theorem dayKey_mono {s t : Int} (h : s ≤ t) : dayKey s ≤ dayKey t := by
  have hpos : (0 : Int) < msPerDay := by norm_num [msPerDay]
  exact Int.ediv_le_ediv hpos h

theorem foldl_push_props (l : List TariffAndConsumptionData) :
    ∀ acc, List.Pairwise byTime l →
    List.Pairwise (fun a b => a < b) (acc.map Prod.fst) →
    (∀ k ∈ acc.map Prod.fst, ∀ r ∈ l, k ≤ dayKey r.valid_from) →
    flattenGroups (l.foldl (fun a r => pushToBucket a (dayKey r.valid_from) r) acc) =
      flattenGroups acc ++ l ∧
    List.Pairwise (fun a b => a < b)
      ((l.foldl (fun a r => pushToBucket a (dayKey r.valid_from) r) acc).map Prod.fst) := by
  induction l with
  | nil => intro acc _ hmono _; exact ⟨by simp, hmono⟩
  | cons r t ih =>
      intro acc hp hmono hbound
      rw [List.pairwise_cons] at hp
      obtain ⟨p1, p2, p3⟩ := pushToBucket_props acc (dayKey r.valid_from) r hmono
        (fun k hk => hbound k hk r (List.mem_cons_self r t))
      have hbound' : ∀ k ∈ (pushToBucket acc (dayKey r.valid_from) r).map Prod.fst,
          ∀ r' ∈ t, k ≤ dayKey r'.valid_from := by
        intro k hk r' hr'
        exact le_trans (p3 k hk) (dayKey_mono (hp.1 r' hr'))
      obtain ⟨q1, q2⟩ := ih (pushToBucket acc (dayKey r.valid_from) r) hp.2 p2 hbound'
      refine ⟨?_, q2⟩
      rw [List.foldl_cons, q1, p1, List.append_assoc]
      rfl

theorem flattenGroups_groupByDate (data : List TariffAndConsumptionData) :
    flattenGroups (groupByDate data) = sortByValidFrom data := by
  have h := foldl_push_props (sortByValidFrom data) [] (sortByValidFrom_pairwise data)
    (by simp) (by simp)
  simpa [groupByDate, flattenGroups] using h.1

theorem groupByDate_keys_pairwise (data : List TariffAndConsumptionData) :
    List.Pairwise (fun a b => a < b) ((groupByDate data).map Prod.fst) := by
  have h := foldl_push_props (sortByValidFrom data) [] (sortByValidFrom_pairwise data)
    (by simp) (by simp)
  simpa [groupByDate] using h.2

theorem bucket_sublist_flatten (groups : List (Int × List TariffAndConsumptionData)) :
    ∀ b ∈ groups, b.2.Sublist (flattenGroups groups) := by
  induction groups with
  | nil => intro b hb; simp at hb
  | cons g t ih =>
      intro b hb
      rcases List.mem_cons.mp hb with hb | hb
      · subst hb
        exact List.sublist_append_left b.2 (flattenGroups t)
      · exact (ih b hb).trans (List.sublist_append_right g.2 (flattenGroups t))

theorem countP_key_unique {β : Type} [DecidableEq β] (k : Int) (rs : β)
    (groups : List (Int × β)) (q : Int × β → Bool)
    (hq : ∀ b, q b = true → b.1 = k)
    (hnd : (groups.map Prod.fst).Nodup) (hmem : (k, rs) ∈ groups) :
    groups.countP q = if q (k, rs) then 1 else 0 := by
  induction groups with
  | nil => simp at hmem
  | cons b t ih =>
      rw [List.map_cons, List.nodup_cons] at hnd
      rcases List.mem_cons.mp hmem with hb | hb
      · subst hb
        have ht : t.countP q = 0 := by
          rw [List.countP_eq_zero]
          intro c hc
          intro hq2
          have hmm := List.mem_map_of_mem Prod.fst hc
          rw [hq c hq2] at hmm
          exact hnd.1 hmm
        rw [List.countP_cons, ht]
        by_cases hqb : q (k, rs) = true
        · simp [hqb]
        · simp [hqb]
      · have hb1 : b.1 ≠ k := by
          intro hcon
          exact hnd.1 (hcon ▸ List.mem_map_of_mem Prod.fst hb)
        have hqb : q b = false := by
          by_contra hcon
          exact hb1 (hq b (Bool.of_not_eq_false hcon))
        rw [List.countP_cons, hqb]
        simpa using ih hnd.2 hb

theorem lookupAgg_pushAgg (acc : List (Int × DayAgg)) (k k' : Int)
    (r : TariffAndConsumptionData) :
    lookupAgg (pushAgg acc k r) k' =
      if k' = k then some (updateAgg ((lookupAgg acc k).getD emptyAgg) r)
      else lookupAgg acc k' := by
  induction acc with
  | nil =>
      by_cases h : k' = k
      · subst h; simp [pushAgg, lookupAgg]
      · simp [pushAgg, lookupAgg, h, Ne.symm h]
  | cons b rest ih =>
      obtain ⟨k0, a0⟩ := b
      by_cases h0 : k0 = k
      · subst h0
        by_cases h : k' = k0
        · subst h; simp [pushAgg, lookupAgg]
        · simp [pushAgg, lookupAgg, h, Ne.symm h]
      · by_cases h : k0 = k'
        · subst h
          simp [pushAgg, lookupAgg, h0, Ne.symm h0]
        · simp [pushAgg, lookupAgg, h0, h, ih]

theorem foldl_pushAgg_lookup (l : List TariffAndConsumptionData) :
    ∀ (acc : List (Int × DayAgg)) (k : Int),
    lookupAgg (l.foldl (fun a r => pushAgg a (dayKey r.valid_from) r) acc) k =
      (l.filter (fun r => decide (dayKey r.valid_from = k))).foldl
        (fun o r => some (updateAgg (o.getD emptyAgg) r)) (lookupAgg acc k) := by
  induction l with
  | nil => intro acc k; rfl
  | cons r t ih =>
      intro acc k
      rw [List.foldl_cons, ih]
      by_cases h : dayKey r.valid_from = k
      · rw [List.filter_cons_of_pos (by simpa using h), List.foldl_cons,
          lookupAgg_pushAgg, if_pos h.symm, h]
      · rw [List.filter_cons_of_neg (by simpa using h), lookupAgg_pushAgg,
          if_neg (fun hc => h hc.symm)]

theorem foldl_optAgg_some (l : List TariffAndConsumptionData) :
    ∀ a : DayAgg,
    l.foldl (fun o r => some (updateAgg (o.getD emptyAgg) r)) (some a) =
      some (l.foldl updateAgg a) := by
  induction l with
  | nil => intro a; rfl
  | cons r t ih => intro a; rw [List.foldl_cons, List.foldl_cons]; exact ih (updateAgg a r)

theorem pushAgg_keys (acc : List (Int × DayAgg)) (k : Int)
    (r : TariffAndConsumptionData) :
    (pushAgg acc k r).map Prod.fst =
      if k ∈ acc.map Prod.fst then acc.map Prod.fst else acc.map Prod.fst ++ [k] := by
  induction acc with
  | nil => simp [pushAgg]
  | cons b rest ih =>
      obtain ⟨k0, a0⟩ := b
      rw [pushAgg]
      by_cases h0 : k0 = k
      · subst h0
        simp
      · rw [if_neg h0, List.map_cons, ih, List.map_cons]
        by_cases h : k ∈ rest.map Prod.fst
        · rw [if_pos h, if_pos (by simp [h])]
        · rw [if_neg h, if_neg (by simp [h, Ne.symm h0]), List.cons_append]

theorem groupedByDate_keys_nodup (data : List TariffAndConsumptionData) :
    ((groupedByDate data).map Prod.fst).Nodup := by
  have main : ∀ (l : List TariffAndConsumptionData) (acc : List (Int × DayAgg)),
      (acc.map Prod.fst).Nodup →
      ((l.foldl (fun a r => pushAgg a (dayKey r.valid_from) r) acc).map Prod.fst).Nodup := by
    intro l
    induction l with
    | nil => intro acc h; exact h
    | cons r t ih =>
        intro acc h
        refine ih _ ?_
        rw [pushAgg_keys]
        by_cases hm : dayKey r.valid_from ∈ acc.map Prod.fst
        · rw [if_pos hm]; exact h
        · rw [if_neg hm]
          refine List.Nodup.append h (List.nodup_singleton _) ?_
          intro a ha hb
          rw [List.mem_singleton] at hb
          exact hm (hb ▸ ha)
  exact main data [] (by simp)

theorem lookupAgg_of_mem (acc : List (Int × DayAgg)) (k : Int) (a : DayAgg)
    (hnd : (acc.map Prod.fst).Nodup) (hmem : (k, a) ∈ acc) :
    lookupAgg acc k = some a := by
  induction acc with
  | nil => simp at hmem
  | cons b rest ih =>
      obtain ⟨k0, a0⟩ := b
      rw [List.map_cons, List.nodup_cons] at hnd
      rcases List.mem_cons.mp hmem with hb | hb
      · injection hb with h1 h2
        subst h1
        subst h2
        simp [lookupAgg]
      · have hk : k0 ≠ k := by
          intro hc
          have hmm := List.mem_map_of_mem Prod.fst hb
          rw [← hc] at hmm
          exact hnd.1 hmm
        rw [lookupAgg, if_neg hk]
        exact ih hnd.2 hb

theorem aggOf_totalCost (l : List TariffAndConsumptionData) :
    ∀ a : DayAgg, (l.foldl updateAgg a).totalCost =
      a.totalCost + (l.map (fun r => r.consumption * r.value_inc_vat)).sum / 100 := by
  induction l with
  | nil => intro a; simp
  | cons r t ih =>
      intro a
      rw [List.foldl_cons, ih, List.map_cons, List.sum_cons, updateAgg]
      ring

/-- Specification of the located current and next tariff, phrased over the
chronologically sorted copy of the input: some position i in the sorted list
is the latest interval already in effect at time now (every later position
starts strictly after now), the returned current interval carries the rate
and start of position i with validUntil taken from position i + 1 when it
exists, the returned next interval is the one of position i + 1 with its
validUntil from position i + 2, and the next interval is null exactly when
position i is the last one. -/
def CurrentNextLocated (data : List TariffAndConsumptionData) (now : Int) : Prop :=
  List.Pairwise byTime (sortByValidFrom data) ∧
  (sortByValidFrom data).Perm data ∧
  ∃ i, i < (sortByValidFrom data).length ∧
    ((sortByValidFrom data).getD i default).valid_from ≤ now ∧
    (∀ j, i < j → j < (sortByValidFrom data).length →
      now < ((sortByValidFrom data).getD j default).valid_from) ∧
    (findCurrentAndNextTariff data now).1 = some
      { rate := ((sortByValidFrom data).getD i default).value_inc_vat
        validFrom := ((sortByValidFrom data).getD i default).valid_from
        validUntil :=
          if i < (sortByValidFrom data).length - 1
          then some (((sortByValidFrom data).getD (i + 1) default).valid_from)
          else none } ∧
    ((findCurrentAndNextTariff data now).2 =
      if i < (sortByValidFrom data).length - 1
      then some
        { rate := ((sortByValidFrom data).getD (i + 1) default).value_inc_vat
          validFrom := ((sortByValidFrom data).getD (i + 1) default).valid_from
          validUntil :=
            if i + 1 < (sortByValidFrom data).length - 1
            then some (((sortByValidFrom data).getD (i + 2) default).valid_from)
            else none }
      else none) ∧
    ((findCurrentAndNextTariff data now).2 = none ↔
      i = (sortByValidFrom data).length - 1)

theorem tariff_before_all (data : List TariffAndConsumptionData) (now : Int)
    (h : ∀ r ∈ data, now < r.valid_from) :
    findCurrentAndNextTariff data now = (none, none) := by
  by_cases hd : data.length = 0
  · rw [findCurrentAndNextTariff, if_pos hd]
  · have hnone : lastIndexLE (sortByValidFrom data) now = none := by
      cases hk : lastIndexLE (sortByValidFrom data) now with
      | none => rfl
      | some k =>
          exfalso
          obtain ⟨hk1, hk2, _⟩ := scanDown_some _ _ _ _ hk
          have hget : (sortByValidFrom data).getD k default ∈ sortByValidFrom data := by
            rw [List.getD_eq_getElem _ _ hk1]
            exact List.getElem_mem hk1
          have hmem : (sortByValidFrom data).getD k default ∈ data :=
            (sortByValidFrom_perm data).mem_iff.mp hget
          exact absurd hk2 (not_le.mpr (h _ hmem))
    rw [findCurrentAndNextTariff, if_neg hd]
    simp only [hnone]

theorem tariff_current_is_latest (data : List TariffAndConsumptionData) (now : Int)
    (h : ∃ r ∈ data, r.valid_from ≤ now) :
    CurrentNextLocated data now := by
  obtain ⟨r, hr, hle⟩ := h
  have hd : ¬ data.length = 0 := by
    intro hc
    rw [List.length_eq_zero] at hc
    subst hc
    simp at hr
  refine ⟨sortByValidFrom_pairwise data, sortByValidFrom_perm data, ?_⟩
  have hmem : r ∈ sortByValidFrom data := (sortByValidFrom_perm data).mem_iff.mpr hr
  obtain ⟨j, hj, hjr⟩ := List.getElem_of_mem hmem
  have hpj : ((sortByValidFrom data).getD j default).valid_from ≤ now := by
    rw [List.getD_eq_getElem _ _ hj, hjr]
    exact hle
  have hsome : lastIndexLE (sortByValidFrom data) now ≠ none := by
    intro hc
    exact absurd hpj (not_le.mpr (scanDown_none _ _ _ hc j hj))
  obtain ⟨i, hk⟩ : ∃ i, lastIndexLE (sortByValidFrom data) now = some i := by
    cases hk : lastIndexLE (sortByValidFrom data) now with
    | none => exact absurd hk hsome
    | some i => exact ⟨i, rfl⟩
  obtain ⟨hi, hci, hafter⟩ := scanDown_some _ _ _ _ hk
  have hres : findCurrentAndNextTariff data now =
      (some (tariffAt (sortByValidFrom data) i),
        if i < (sortByValidFrom data).length - 1
        then some (tariffAt (sortByValidFrom data) (i + 1)) else none) := by
    rw [findCurrentAndNextTariff, if_neg hd]
    simp only [hk]
  refine ⟨i, hi, hci, hafter, ?_, ?_, ?_⟩
  · rw [hres]
    rfl
  · rw [hres]
    rfl
  · rw [hres]
    by_cases hlast : i < (sortByValidFrom data).length - 1
    · rw [if_pos hlast]
      simp only [Option.some_ne_none, false_iff]
      omega
    · rw [if_neg hlast]
      simp only [true_iff]
      omega

theorem tariff_adjacency (data : List TariffAndConsumptionData) (now : Int)
    (c nx : TariffInfo)
    (h : findCurrentAndNextTariff data now = (some c, some nx)) :
    c.validUntil = some nx.validFrom ∧ c.validFrom ≤ now ∧ now < nx.validFrom := by
  by_cases hd : data.length = 0
  · rw [findCurrentAndNextTariff, if_pos hd] at h
    exact absurd (congrArg Prod.fst h) (by simp)
  · cases hk : lastIndexLE (sortByValidFrom data) now with
    | none =>
        rw [findCurrentAndNextTariff, if_neg hd] at h
        simp only [hk] at h
        exact absurd (congrArg Prod.fst h) (by simp)
    | some i =>
        rw [findCurrentAndNextTariff, if_neg hd] at h
        simp only [hk] at h
        obtain ⟨hi, hci, hafter⟩ := scanDown_some _ _ _ _ hk
        have h1 : some (tariffAt (sortByValidFrom data) i) = some c :=
          congrArg Prod.fst h
        have h2 : (if i < (sortByValidFrom data).length - 1
            then some (tariffAt (sortByValidFrom data) (i + 1)) else none) = some nx :=
          congrArg Prod.snd h
        by_cases hlast : i < (sortByValidFrom data).length - 1
        · rw [if_pos hlast] at h2
          have hc : c = tariffAt (sortByValidFrom data) i := (Option.some.inj h1).symm
          have hn : nx = tariffAt (sortByValidFrom data) (i + 1) := (Option.some.inj h2).symm
          subst hc
          subst hn
          refine ⟨?_, hci, ?_⟩
          · rw [tariffAt, tariffAt]
            simp only [if_pos hlast]
          · rw [tariffAt]
            exact hafter (i + 1) (Nat.lt_succ_self i) (by omega)
        · rw [if_neg hlast] at h2
          exact absurd h2 (by simp)

theorem groupByDate_keys_nodup (data : List TariffAndConsumptionData) :
    ((groupByDate data).map Prod.fst).Nodup :=
  (groupByDate_keys_pairwise data).imp ne_of_lt

/-- Bool test for a price trace carrying the given date key. -/
def isPriceFor (k : Int) : ChartTrace → Bool
  | ChartTrace.price k2 _ _ => k2 == k
  | _ => false

/-- Bool test for a consumption trace carrying the given date key. -/
def isConsumptionFor (k : Int) : ChartTrace → Bool
  | ChartTrace.consumption k2 _ _ => k2 == k
  | _ => false

/-- Pence total of calculateCostSummary in pounds is the summed pence cost
divided by 100 once. -/
theorem calculateCostSummary_totalCost (l : List TariffAndConsumptionData) :
    (calculateCostSummary l none).totalCost =
      (l.map (fun r => r.consumption * r.value_inc_vat)).sum / 100 := by
  simp [calculateCostSummary, foldl_add_eq_sum]

/-- C1: calculateCostSummary agrees everywhere with the reference algorithm
of the specification (summed pence cost divided by 100 at the end, and the
consumption-weighted average of rates guarded at zero total consumption),
and on the readings with rate 20p at 2 kWh and rate 30p at 3 kWh it
returns totalCost 1.30 pounds and averageCostPerKwh 26 pence. -/
theorem claim1_cost_summary_reference :
    (∀ data period, calculateCostSummary data period = summarizeSpec data period) ∧
    calculateCostSummary [⟨0, 20, 2⟩, ⟨1800000, 30, 3⟩] none =
      { totalCost := 13/10, averageCostPerKwh := 26, period := none } := by
  refine ⟨calculateCostSummary_eq_spec, ?_⟩
  simp only [calculateCostSummary, List.foldl_cons, List.foldl_nil]
  norm_num

/-- C2 counterexample: with one interval starting at time 10 and now at 5
(now strictly before every validFrom of the non-empty list), the function
returns both components null, so next is not the earliest interval and the
all-null answer is not reserved for empty input. -/
theorem claim2_counterexample :
    findCurrentAndNextTariff [⟨10, 20, 1⟩] 5 = (none, none) ∧
    ([⟨10, 20, 1⟩] : List TariffAndConsumptionData) ≠ [] ∧
    (5 : Int) < 10 :=
  ⟨by decide, by decide, by decide⟩

/-- C2 (amended): whenever now is strictly before the validFrom of every
interval of the list, findCurrentAndNextTariff returns current null and
next null, for empty and non-empty lists alike. -/
theorem claim2_amended_all_null (data : List TariffAndConsumptionData)
    (now : Int) (h : ∀ r ∈ data, now < r.valid_from) :
    findCurrentAndNextTariff data now = (none, none) :=
  tariff_before_all data now h

theorem claim2_amended_all_null_witness :
    (∀ r ∈ ([⟨10, 20, 1⟩] : List TariffAndConsumptionData), (5 : Int) < r.valid_from) ∧
    findCurrentAndNextTariff [⟨10, 20, 1⟩] 5 = (none, none) :=
  ⟨by decide, claim2_amended_all_null [⟨10, 20, 1⟩] 5 (by decide)⟩

/-- C3: when at least one interval has validFrom at most now, the returned
current tariff sits at the latest position of the sorted list whose
validFrom is at most now, its validUntil is the validFrom of the next
sorted position or none at the end, the returned next tariff is the
interval right after the current one, and next is null exactly when the
current interval is the last one (CurrentNextLocated spells this out). -/
theorem claim3_current_next_structure (data : List TariffAndConsumptionData)
    (now : Int) (h : ∃ r ∈ data, r.valid_from ≤ now) :
    CurrentNextLocated data now :=
  tariff_current_is_latest data now h

theorem claim3_current_next_structure_witness :
    (∃ r ∈ ([⟨0, 20, 1⟩, ⟨100, 30, 2⟩] : List TariffAndConsumptionData),
      r.valid_from ≤ 50) ∧
    CurrentNextLocated [⟨0, 20, 1⟩, ⟨100, 30, 2⟩] 50 :=
  ⟨by decide, claim3_current_next_structure [⟨0, 20, 1⟩, ⟨100, 30, 2⟩] 50 (by decide)⟩

/-- C4: calculateCostSummary of the empty list is the zero summary, and any
record list with zero total consumption yields averageCostPerKwh zero (the
guard takes the else branch, so no division happens at all). -/
theorem claim4_zero_guard :
    calculateCostSummary [] none =
      { totalCost := 0, averageCostPerKwh := 0, period := none } ∧
    ∀ data period, (data.map (fun r => r.consumption)).sum = 0 →
      (calculateCostSummary data period).averageCostPerKwh = 0 := by
  refine ⟨?_, ?_⟩
  · simp only [calculateCostSummary, List.foldl_nil]
    norm_num
  · intro data period h
    simp [calculateCostSummary, foldl_add_eq_sum, h]

theorem claim4_zero_guard_witness :
    (([⟨0, 20, 0⟩] : List TariffAndConsumptionData).map (fun r => r.consumption)).sum = 0 ∧
    (calculateCostSummary [⟨0, 20, 0⟩] none).averageCostPerKwh = 0 :=
  ⟨by simp, claim4_zero_guard.2 [⟨0, 20, 0⟩] none (by simp)⟩

/-- C5 (code bug): getWeekStart keeps the millisecond component of now
(setHours is called with three arguments), so with now at Monday
12:00:00.500 of the second model week the computed week start is Monday
00:00:00.500, the reading timestamped exactly at that Monday 00:00:00.000
is excluded from the week-to-date summary, whereas the specification week
start (Monday 00:00 sharp) includes it; a reading one week earlier is
excluded under both. -/
theorem claim5_week_start_millisecond_bug :
    getWeekStart (604800000 + 43200500) = 604800000 + 500 ∧
    specWeekStart (604800000 + 43200500) = 604800000 ∧
    wtdCostSummary [⟨604800000, 20, 1⟩] (604800000 + 43200500) =
      { totalCost := 0, averageCostPerKwh := 0, period := some ("WTD") } ∧
    calculateCostSummary
      (filterDataByDateRange [⟨604800000, 20, 1⟩]
        (specWeekStart (604800000 + 43200500)) (604800000 + 43200500))
      (some ("WTD")) =
      { totalCost := 1/5, averageCostPerKwh := 20, period := some ("WTD") } ∧
    filterDataByDateRange [⟨0, 15, 1⟩]
      (specWeekStart (604800000 + 43200500)) (604800000 + 43200500) = [] := by
  refine ⟨by decide, by decide, ?_, ?_, by decide⟩
  · have hf : filterDataByDateRange [⟨604800000, 20, 1⟩]
        (getWeekStart (604800000 + 43200500)) (604800000 + 43200500) = [] := by decide
    rw [wtdCostSummary, hf]
    simp only [calculateCostSummary, List.foldl_nil]
    norm_num
  · have hf : filterDataByDateRange [⟨604800000, 20, 1⟩]
        (specWeekStart (604800000 + 43200500)) (604800000 + 43200500) =
        [⟨604800000, 20, 1⟩] := by decide
    rw [hf]
    simp only [calculateCostSummary, List.foldl_cons, List.foldl_nil]
    norm_num

theorem any_sort_iff (rs : List TariffAndConsumptionData) :
    ((sortByValidFrom rs).any (fun i => decide (i.consumption ≠ 0)) = true) ↔
      ∃ r ∈ rs, r.consumption ≠ 0 := by
  rw [List.any_eq_true]
  constructor
  · rintro ⟨x, hx, hpx⟩
    exact ⟨x, (sortByValidFrom_perm rs).mem_iff.mp hx, of_decide_eq_true hpx⟩
  · rintro ⟨x, hx, hpx⟩
    exact ⟨x, (sortByValidFrom_perm rs).mem_iff.mpr hx, decide_eq_true hpx⟩

/-- C6: for every date bucket of the grouping, the chart output has exactly
one price trace carrying the bucket key and it has a consumption trace for
that key exactly when some reading of the bucket has nonzero consumption
(all-zero buckets get the placeholder empty object instead, so no
consumption trace of theirs appears in the list). -/
theorem claim6_series_per_bucket (data : List TariffAndConsumptionData)
    (k : Int) (rs : List TariffAndConsumptionData)
    (hmem : (k, rs) ∈ groupByDate data) :
    (createChartData data).countP (isPriceFor k) = 1 ∧
    (createChartData data).countP (isConsumptionFor k) =
      (if ∃ r ∈ rs, r.consumption ≠ 0 then 1 else 0) := by
  have hnd := groupByDate_keys_nodup data
  constructor
  · rw [createChartData, List.countP_append, List.countP_map, List.countP_map]
    have h1 : (groupByDate data).countP (isPriceFor k ∘ priceTrace) =
        (groupByDate data).countP (fun b => b.1 == k) :=
      List.countP_congr (fun b _ => by rw [Function.comp_apply]; rfl)
    have h2 : (groupByDate data).countP (isPriceFor k ∘ consumptionTrace) = 0 := by
      rw [List.countP_eq_zero]
      intro b _
      rw [Function.comp_apply, consumptionTrace]
      by_cases hc : (sortByValidFrom b.2).any (fun i => decide (i.consumption ≠ 0))
      · rw [if_pos hc]
        simp [isPriceFor]
      · rw [if_neg hc]
        simp [isPriceFor]
    rw [h1, h2, countP_key_unique k rs (groupByDate data) (fun b => b.1 == k)
      (fun b hb => eq_of_beq hb) hnd hmem]
    simp
  · rw [createChartData, List.countP_append, List.countP_map, List.countP_map]
    have h1 : (groupByDate data).countP (isConsumptionFor k ∘ priceTrace) = 0 := by
      rw [List.countP_eq_zero]
      intro b _
      rw [Function.comp_apply, priceTrace]
      simp [isConsumptionFor]
    have h2 : (groupByDate data).countP (isConsumptionFor k ∘ consumptionTrace) =
        (groupByDate data).countP
          (fun b => (b.1 == k) &&
            (sortByValidFrom b.2).any (fun i => decide (i.consumption ≠ 0))) := by
      refine List.countP_congr ?_
      intro b _
      rw [Function.comp_apply, consumptionTrace]
      by_cases hc : (sortByValidFrom b.2).any (fun i => decide (i.consumption ≠ 0))
      · rw [if_pos hc, hc]
        simp [isConsumptionFor]
      · rw [if_neg hc]
        simp only [Bool.not_eq_true] at hc
        rw [hc]
        simp [isConsumptionFor]
    rw [h1, h2, countP_key_unique k rs (groupByDate data) _
      (fun b hb => eq_of_beq (Bool.and_elim_left hb)) hnd hmem]
    by_cases hex : ∃ r ∈ rs, r.consumption ≠ 0
    · rw [if_pos hex, if_pos]
      simp only [beq_self_eq_true, Bool.true_and]
      exact (any_sort_iff rs).mpr hex
    · rw [if_neg hex, if_neg]
      intro hc
      rw [Bool.and_eq_true] at hc
      exact hex ((any_sort_iff rs).mp hc.2)

theorem claim6_series_per_bucket_witness :
    ((0, [⟨0, 20, 1⟩]) ∈ groupByDate [⟨0, 20, 1⟩]) ∧
    ((createChartData [⟨0, 20, 1⟩]).countP (isPriceFor 0) = 1 ∧
      (createChartData [⟨0, 20, 1⟩]).countP (isConsumptionFor 0) =
        (if ∃ r ∈ ([⟨0, 20, 1⟩] : List TariffAndConsumptionData),
          r.consumption ≠ 0 then 1 else 0)) :=
  ⟨by decide, claim6_series_per_bucket [⟨0, 20, 1⟩] 0 [⟨0, 20, 1⟩] (by decide)⟩

/-- C7: the date bucketing is a partition of the input: flattening the
buckets and sorting by timestamp gives the input sorted by timestamp, the
flattened buckets are a permutation of the input (nothing dropped, nothing
duplicated), and every bucket is in ascending timestamp order. -/
theorem claim7_bucket_partition :
    (∀ data, sortByValidFrom (flattenGroups (groupByDate data)) = sortByValidFrom data) ∧
    (∀ data, (flattenGroups (groupByDate data)).Perm data) ∧
    (∀ data b, b ∈ groupByDate data → List.Pairwise byTime b.2) := by
  refine ⟨?_, ?_, ?_⟩
  · intro data
    rw [flattenGroups_groupByDate]
    exact sortByValidFrom_of_pairwise _ (sortByValidFrom_pairwise data)
  · intro data
    rw [flattenGroups_groupByDate]
    exact sortByValidFrom_perm data
  · intro data b hb
    exact List.Pairwise.sublist
      (flattenGroups_groupByDate data ▸ bucket_sublist_flatten _ b hb)
      (sortByValidFrom_pairwise data)

theorem claim7_bucket_partition_witness :
    ((1, [⟨129600000, 25, 2⟩]) ∈ groupByDate [⟨129600000, 25, 2⟩]) ∧
    List.Pairwise byTime ([⟨129600000, 25, 2⟩] : List TariffAndConsumptionData) :=
  ⟨by decide, claim7_bucket_partition.2.2 [⟨129600000, 25, 2⟩]
    (1, [⟨129600000, 25, 2⟩]) (by decide)⟩

/-- C8: filterDataByDateRange keeps exactly the records whose timestamp
lies in the closed range (per-record multiplicity preserved for matching
records, zero for the others), as a subsequence of the input, and the
empty input gives the empty output. -/
theorem claim8_filter_range :
    (∀ data s e, (filterDataByDateRange data s e).Sublist data) ∧
    (∀ data s e r, (filterDataByDateRange data s e).count r =
      if s ≤ r.valid_from ∧ r.valid_from ≤ e then data.count r else 0) ∧
    (∀ s e, filterDataByDateRange [] s e = []) := by
  refine ⟨?_, ?_, ?_⟩
  · intro data s e
    exact List.filter_sublist data
  · intro data s e r
    by_cases h : s ≤ r.valid_from ∧ r.valid_from ≤ e
    · rw [if_pos h]
      exact List.count_filter (by simp [h.1, h.2])
    · rw [if_neg h]
      rw [List.count_eq_zero]
      intro hc
      have hm := List.mem_filter.mp hc
      rw [Bool.and_eq_true, decide_eq_true_iff, decide_eq_true_iff] at hm
      exact h ⟨hm.2.1, hm.2.2⟩
  · intro s e
    rfl

/-- C9: each per-day totalCost of the detail grid aggregation, accumulated
as per-record pence cost divided by 100, equals in exact arithmetic the
end-division total (summed pence cost of that day divided by 100 once) of
calculateCostSummary over the records of that day. -/
theorem claim9_per_day_cost_end_division (data : List TariffAndConsumptionData)
    (k : Int) (a : DayAgg) (hmem : (k, a) ∈ groupedByDate data) :
    a.totalCost = (calculateCostSummary
      (data.filter (fun r => decide (dayKey r.valid_from = k))) none).totalCost := by
  have hlk : lookupAgg (groupedByDate data) k = some a :=
    lookupAgg_of_mem _ _ _ (groupedByDate_keys_nodup data) hmem
  rw [groupedByDate, foldl_pushAgg_lookup data [] k] at hlk
  rw [calculateCostSummary_totalCost]
  cases hfl : data.filter (fun r => decide (dayKey r.valid_from = k)) with
  | nil =>
      rw [hfl] at hlk
      simp [lookupAgg] at hlk
  | cons r t =>
      rw [hfl, List.foldl_cons, foldl_optAgg_some] at hlk
      have ha : a = (r :: t).foldl updateAgg emptyAgg := by
        rw [List.foldl_cons]
        exact (Option.some.inj hlk).symm
      rw [ha, aggOf_totalCost]
      show (0 : Rat) + _ = _
      rw [zero_add]

theorem claim9_per_day_cost_end_division_witness :
    ((0, updateAgg emptyAgg ⟨0, 20, 2⟩) ∈ groupedByDate [⟨0, 20, 2⟩]) ∧
    (updateAgg emptyAgg ⟨0, 20, 2⟩).totalCost = (calculateCostSummary
      (([⟨0, 20, 2⟩] : List TariffAndConsumptionData).filter
        (fun r => decide (dayKey r.valid_from = 0))) none).totalCost :=
  ⟨by simp [groupedByDate, pushAgg, dayKey, msPerDay],
    claim9_per_day_cost_end_division [⟨0, 20, 2⟩] 0 (updateAgg emptyAgg ⟨0, 20, 2⟩)
      (by simp [groupedByDate, pushAgg, dayKey, msPerDay])⟩

/-- C10: whenever the locator returns both a current and a next tariff, the
two are adjacent in the sorted series (the validUntil of current is the
validFrom of next), the current one has already started (validFrom at most
now), and the next one starts strictly after now. -/
theorem claim10_adjacent_invariant (data : List TariffAndConsumptionData)
    (now : Int) (c nx : TariffInfo)
    (h : findCurrentAndNextTariff data now = (some c, some nx)) :
    c.validUntil = some nx.validFrom ∧ c.validFrom ≤ now ∧ now < nx.validFrom :=
  tariff_adjacency data now c nx h

theorem claim10_adjacent_invariant_witness :
    findCurrentAndNextTariff [⟨0, 20, 1⟩, ⟨100, 30, 1⟩] 50 =
      (some ⟨20, 0, some 100⟩, some ⟨30, 100, none⟩) ∧
    ((⟨20, 0, some 100⟩ : TariffInfo).validUntil =
        some (⟨30, 100, none⟩ : TariffInfo).validFrom ∧
      (⟨20, 0, some 100⟩ : TariffInfo).validFrom ≤ 50 ∧
      (50 : Int) < (⟨30, 100, none⟩ : TariffInfo).validFrom) :=
  ⟨by decide, claim10_adjacent_invariant [⟨0, 20, 1⟩, ⟨100, 30, 1⟩] 50
    ⟨20, 0, some 100⟩ ⟨30, 100, none⟩ (by decide)⟩

end Octopus
